import Mathlib

/-!
Shallow embedding of the Sudoku board model from `src/main.rs`.

The board is a 9×9 grid of small integers (`cells[row][col]`, 0 = empty,
1–9 = digit), with constraint-set queries (`leftright`, `updown`, `inbox`),
a character query (`char`), a cell mutation (`set`), a generation routine
(`populate`) and a stub solved check (`solved`).  The controller
(`GameboardController`) tracks a cursor position and an optional selected
cell and reacts to pointer and keyboard events.

Modelling choices:
* Machine integers (`u8`, `usize`) become `Nat`; all values handled stay far
  below any overflow boundary, so no wraparound modelling is needed.
* `cells : [[u8; 9]; 9]` becomes `Fin 9 → Fin 9 → Nat`.
* `HashSet<u8>` results become `Finset Nat`.
* The Rust index panic in `set` (called with a `usize` pair that may be out
  of range) is modelled by returning `Option Gameboard`; `none` is the
  panic.  Likewise the controller's `event` returns `Option`.
* The thread-local RNG of `populate` is made explicit: the unspecified
  iteration order of the `HashSet` of digits becomes a parameter
  `possibilities`, and the sequence of `gen_range(0, len)` results becomes a
  parameter `picks`.
* `f64` pointer coordinates become `ℚ`; the `as usize` cast of a
  nonnegative float is truncation, i.e. `Int.toNat ∘ Rat.floor`.
-/

/-- The board: `cells j i` is the cell at row `j`, column `i`. -/
structure Gameboard where
  cells : Fin 9 → Fin 9 → Nat

/-- `Gameboard::new`: all cells start at 0. -/
def Gameboard.new : Gameboard := ⟨fun _ _ => 0⟩

/-- `Gameboard::char`: the character at cell `ind` = `(col, row)`;
`cells[ind[1]][ind[0]]` rendered as a digit character, `none` for any
value outside `1..=9`. -/
def Gameboard.char (b : Gameboard) (ind : Fin 9 × Fin 9) : Option Char :=
  match b.cells ind.2 ind.1 with
  | 1 => some '1'
  | 2 => some '2'
  | 3 => some '3'
  | 4 => some '4'
  | 5 => some '5'
  | 6 => some '6'
  | 7 => some '7'
  | 8 => some '8'
  | 9 => some '9'
  | _ => none

/-- `Gameboard::set`: `self.cells[ind[1]][ind[0]] = val`.  The `usize`
indices are unchecked in Rust; an out-of-range index panics, modelled by
`none`. -/
def Gameboard.set (b : Gameboard) (ind : Nat × Nat) (val : Nat) : Option Gameboard :=
  if h : ind.2 < 9 ∧ ind.1 < 9 then
    some ⟨fun j i => if j.val = ind.2 ∧ i.val = ind.1 then val else b.cells j i⟩
  else none

/-- `Gameboard::leftright`: the loop `for i in 0..x` followed by
`for i in (x+1)..9`, inserting `cells[y][i]` into a set. -/
def Gameboard.leftright (b : Gameboard) (x y : Fin 9) : Finset Nat :=
  (Finset.Iio x).image (fun i => b.cells y i) ∪
    (Finset.Ioi x).image (fun i => b.cells y i)

/-- `Gameboard::updown`: the loop `for j in 0..y` followed by
`for j in (y+1)..9`, inserting `cells[j][x]` into a set. -/
def Gameboard.updown (b : Gameboard) (x y : Fin 9) : Finset Nat :=
  (Finset.Iio y).image (fun j => b.cells j x) ∪
    (Finset.Ioi y).image (fun j => b.cells j x)

/-- Index bound for the box scan: `y/3*3 + a < 9` when `y < 9`, `a < 3`. -/
theorem boxIdxLt (y : Fin 9) (a : Fin 3) : y.val / 3 * 3 + a.val < 9 := by
  have h1 := y.isLt
  have h2 := a.isLt
  omega

/-- `Gameboard::inbox`: with `grid_x = x/3`, `grid_y = y/3`, the double loop
`for j in grid_y*3..(grid_y+1)*3 { for i in grid_x*3..(grid_x+1)*3 }`
inserting `cells[j][i]`; the loop offsets are the `Fin 3 × Fin 3` argument. -/
def Gameboard.inbox (b : Gameboard) (x y : Fin 9) : Finset Nat :=
  Finset.univ.image (fun p : Fin 3 × Fin 3 =>
    b.cells ⟨y.val / 3 * 3 + p.1.val, boxIdxLt y p.1⟩
      ⟨x.val / 3 * 3 + p.2.val, boxIdxLt x p.2⟩)

/-- `Gameboard::fullset`: the set `{1,…,9}` built by nine inserts. -/
def Gameboard.fullset : Finset Nat :=
  insert 1 (insert 2 (insert 3 (insert 4 (insert 5 (insert 6 (insert 7
    (insert 8 (insert 9 (∅ : Finset Nat)))))))))

/-- The seeding loop of `populate`: repeatedly `remove` the element at the
picked index from `possibilities` and push it onto the seed.  Each pick is
a `gen_range(0, possibilities.len())` result; an out-of-range pick cannot
occur in the source, and the embedding stops there. -/
def drawSeed : List Nat → List Nat → List Nat
  | _, [] => []
  | poss, p :: ps =>
    if h : p < poss.length then
      poss.get ⟨p, h⟩ :: drawSeed (poss.eraseIdx p) ps
    else []

/-- `validPicks n ps`: every pick is in range of the shrinking length,
starting from `n` remaining elements — the contract `gen_range(0, len)`
guarantees. -/
def validPicks : Nat → List Nat → Bool
  | _, [] => true
  | n, p :: ps => decide (p < n) && validPicks (n - 1) ps

/-- The fixed table of nine index permutations in `populate`. -/
def indexes : List (List Nat) :=
  [[0, 1, 2, 3, 4, 5, 6, 7, 8],
   [3, 4, 5, 6, 7, 8, 0, 1, 2],
   [6, 7, 8, 0, 1, 2, 3, 4, 5],
   [7, 8, 0, 1, 2, 3, 4, 5, 6],
   [1, 2, 3, 4, 5, 6, 7, 8, 0],
   [4, 5, 6, 7, 8, 0, 1, 2, 3],
   [5, 6, 7, 8, 0, 1, 2, 3, 4],
   [8, 0, 1, 2, 3, 4, 5, 6, 7],
   [2, 3, 4, 5, 6, 7, 8, 0, 1]]

/-- `indexes[j][i]` as a total function on board coordinates. -/
def idxAt (j i : Fin 9) : Nat := (indexes.getD j.val []).getD i.val 0

/-- The fill loop of `populate`: `cells[j][i] = seed[indexes[j][i]]`. -/
def Gameboard.applyIndexes (b : Gameboard) (seed : List Nat) : Gameboard :=
  ⟨fun j i => seed.getD (idxAt j i) 0⟩

/-- `Gameboard::populate`: draw a seed permutation from the digit set
(`possibilities` is the digit set in the `HashSet` iteration order, `picks`
the RNG results), then fill every cell through the fixed index table. -/
def Gameboard.populate (b : Gameboard) (possibilities picks : List Nat) : Gameboard :=
  b.applyIndexes (drawSeed possibilities picks)

/-- `Gameboard::solved`: the stub, constantly `false`. -/
def Gameboard.solved (b : Gameboard) : Bool := false

/-- The set of values appearing in row `j`. -/
def Gameboard.rowSet (b : Gameboard) (j : Fin 9) : Finset Nat :=
  Finset.univ.image (fun i => b.cells j i)

/-- The set of values appearing in column `i`. -/
def Gameboard.colSet (b : Gameboard) (i : Fin 9) : Finset Nat :=
  Finset.univ.image (fun j => b.cells j i)

/-- The keyboard keys the controller distinguishes. -/
inductive Key where
  | d1 | d2 | d3 | d4 | d5 | d6 | d7 | d8 | d9
  | other
deriving DecidableEq

/-- The digit the key match in `event` assigns, `none` for ignored keys. -/
def keyVal : Key → Option Nat
  | .d1 => some 1
  | .d2 => some 2
  | .d3 => some 3
  | .d4 => some 4
  | .d5 => some 5
  | .d6 => some 6
  | .d7 => some 7
  | .d8 => some 8
  | .d9 => some 9
  | .other => none

/-- The events `GameboardController::event` reacts to: a cursor move
(`mouse_cursor_args`), a left mouse press, or a keyboard press.  A single
piston event triggers exactly one of the three branches in the source. -/
inductive GEvent where
  | mouseCursor (p : ℚ × ℚ)
  | pressMouseLeft
  | pressKeyboard (k : Key)

/-- The `as usize` cast of an `f64`: truncation toward zero, which on the
rationals is `Int.toNat ∘ floor` (negatives go to 0 either way). -/
def usizeOfRat (q : ℚ) : Nat := (⌊q⌋).toNat

/-- The controller: the board, the optional selected cell (a raw `usize`
pair in the source), and the last cursor position. -/
structure GameboardController where
  gameboard : Gameboard
  selected_cell : Option (Nat × Nat)
  cursor_pos : ℚ × ℚ

/-- `GameboardController::new`. -/
def GameboardController.new (g : Gameboard) : GameboardController :=
  ⟨g, none, (0, 0)⟩

/-- `GameboardController::event` with board position `pos` and size `size`:
a cursor move records the position; a left press hit-tests the cursor
against the board rectangle (bounds inclusive) and derives the cell by
`(rel / size * 9.0) as usize`; a key press writes the matched digit through
`Gameboard.set` at the selected cell.  `none` models the index panic of
`set`. -/
def GameboardController.event (c : GameboardController) (pos : ℚ × ℚ) (size : ℚ)
    (e : GEvent) : Option GameboardController :=
  match e with
  | .mouseCursor p => some { c with cursor_pos := p }
  | .pressMouseLeft =>
    let x := c.cursor_pos.1 - pos.1
    let y := c.cursor_pos.2 - pos.2
    if 0 ≤ x ∧ x ≤ size ∧ 0 ≤ y ∧ y ≤ size then
      some { c with
        selected_cell := some (usizeOfRat (x / size * 9), usizeOfRat (y / size * 9)) }
    else some c
  | .pressKeyboard k =>
    match c.selected_cell with
    | none => some c
    | some ind =>
      match keyVal k with
      | none => some c
      | some v => (c.gameboard.set ind v).map (fun g => { c with gameboard := g })

/-- Run a sequence of events through the controller; `none` once any step
panics. -/
def runEvents (c : GameboardController) (pos : ℚ × ℚ) (size : ℚ) :
    List GEvent → Option GameboardController
  | [] => some c
  | e :: es =>
    match c.event pos size e with
    | some c2 => runEvents c2 pos size es
    | none => none

/-! ## Helper lemmas for the generation algorithm -/

/-- Removing the element at a valid index and re-consing it in front is a
permutation of the original list. -/
theorem cons_eraseIdx_perm (l : List Nat) (p : Nat) (h : p < l.length) :
    (l.get ⟨p, h⟩ :: l.eraseIdx p).Perm l := by
  have h1 : (l.erase (l.get ⟨p, h⟩)).Perm (l.eraseIdx p) := List.erase_getElem h
  have h2 : l.Perm (l.get ⟨p, h⟩ :: l.erase (l.get ⟨p, h⟩)) :=
    List.perm_cons_erase (l.get_mem p h)
  exact ((h1.cons (l.get ⟨p, h⟩)).symm.trans h2.symm)

/-- The seeding loop permutes its pool: with in-range picks, exactly as many
as the pool holds, the drawn seed is a permutation of the pool. -/
theorem drawSeed_perm (picks : List Nat) : ∀ poss : List Nat,
    validPicks poss.length picks = true → picks.length = poss.length →
    (drawSeed poss picks).Perm poss := by
  induction picks with
  | nil =>
    intro poss hv hlen
    have h0 : poss = [] := List.length_eq_zero.mp hlen.symm
    subst h0
    simp [drawSeed]
  | cons p ps ih =>
    intro poss hv hlen
    simp only [validPicks, Bool.and_eq_true, decide_eq_true_eq] at hv
    have hp : p < poss.length := hv.1
    have herase : (poss.eraseIdx p).length + 1 = poss.length :=
      List.length_eraseIdx_add_one hp
    have hv2 : validPicks (poss.eraseIdx p).length ps = true := by
      have : (poss.eraseIdx p).length = poss.length - 1 := by omega
      rw [this]
      exact hv.2
    have hlen2 : ps.length = (poss.eraseIdx p).length := by
      simp only [List.length_cons] at hlen
      omega
    have hrec := ih (poss.eraseIdx p) hv2 hlen2
    simp only [drawSeed, dif_pos hp]
    exact (hrec.cons (poss.get ⟨p, hp⟩)).trans (cons_eraseIdx_perm poss p hp)

/-- Reading a length-9 list at all positions 0–8 yields its element set. -/
theorem getD_image_range (l : List Nat) (h : l.length = 9) :
    (Finset.range 9).image (fun k => l.getD k 0) = l.toFinset := by
  ext v
  simp only [Finset.mem_image, Finset.mem_range, List.mem_toFinset]
  constructor
  · rintro ⟨k, hk, rfl⟩
    have hk2 : k < l.length := by omega
    rw [List.getD_eq_getElem l 0 hk2]
    exact List.getElem_mem hk2
  · intro hv
    rcases List.mem_iff_getElem.mp hv with ⟨k, hk, rfl⟩
    exact ⟨k, by omega, by rw [List.getD_eq_getElem l 0 hk]⟩

/-- Composing a read of a length-9 list with any index map that covers 0–8
yields the list's element set. -/
theorem image_getD_comp {α : Type} [Fintype α] [DecidableEq α] (seed : List Nat)
    (hlen : seed.length = 9) (f : α → Nat)
    (hf : Finset.univ.image f = Finset.range 9) :
    Finset.univ.image (fun a => seed.getD (f a) 0) = seed.toFinset := by
  have h1 : (fun a => seed.getD (f a) 0) = (fun k => seed.getD k 0) ∘ f := rfl
  rw [h1, ← Finset.image_image, hf, getD_image_range seed hlen]

/-- Each row of the fixed index table covers all indices 0–8. -/
theorem rowIdx_image : ∀ j : Fin 9,
    Finset.univ.image (fun i : Fin 9 => idxAt j i) = Finset.range 9 := by decide

/-- Each column of the fixed index table covers all indices 0–8. -/
theorem colIdx_image : ∀ i : Fin 9,
    Finset.univ.image (fun j : Fin 9 => idxAt j i) = Finset.range 9 := by decide

/-- Each 3×3 box of the fixed index table covers all indices 0–8. -/
theorem boxIdx_image : ∀ x y : Fin 9,
    Finset.univ.image (fun p : Fin 3 × Fin 3 =>
      idxAt ⟨y.val / 3 * 3 + p.1.val, boxIdxLt y p.1⟩
        ⟨x.val / 3 * 3 + p.2.val, boxIdxLt x p.2⟩) = Finset.range 9 := by decide

/-- The digit list 1–9 has `fullset` as its element set. -/
theorem toFinset_digits : ([1, 2, 3, 4, 5, 6, 7, 8, 9] : List Nat).toFinset
    = Gameboard.fullset := by decide

/-- A permutation of the digits 1–9 has `fullset` as its element set. -/
theorem seed_toFinset_fullset (seed : List Nat)
    (hs : seed.Perm [1, 2, 3, 4, 5, 6, 7, 8, 9]) :
    seed.toFinset = Gameboard.fullset := by
  rw [List.toFinset_eq_of_perm seed _ hs, toFinset_digits]

/-- Filling through the index table from a digit permutation makes every
row hold the full digit set. -/
theorem applyIndexes_rowSet (b : Gameboard) (seed : List Nat)
    (hs : seed.Perm [1, 2, 3, 4, 5, 6, 7, 8, 9]) (j : Fin 9) :
    (b.applyIndexes seed).rowSet j = Gameboard.fullset := by
  have hlen : seed.length = 9 := by simpa using hs.length_eq
  have h := image_getD_comp seed hlen (fun i : Fin 9 => idxAt j i) (rowIdx_image j)
  exact h.trans (seed_toFinset_fullset seed hs)

/-- Filling through the index table from a digit permutation makes every
column hold the full digit set. -/
theorem applyIndexes_colSet (b : Gameboard) (seed : List Nat)
    (hs : seed.Perm [1, 2, 3, 4, 5, 6, 7, 8, 9]) (i : Fin 9) :
    (b.applyIndexes seed).colSet i = Gameboard.fullset := by
  have hlen : seed.length = 9 := by simpa using hs.length_eq
  have h := image_getD_comp seed hlen (fun j : Fin 9 => idxAt j i) (colIdx_image i)
  exact h.trans (seed_toFinset_fullset seed hs)

/-- Filling through the index table from a digit permutation makes every
3×3 box hold the full digit set. -/
theorem applyIndexes_inbox (b : Gameboard) (seed : List Nat)
    (hs : seed.Perm [1, 2, 3, 4, 5, 6, 7, 8, 9]) (x y : Fin 9) :
    (b.applyIndexes seed).inbox x y = Gameboard.fullset := by
  have hlen : seed.length = 9 := by simpa using hs.length_eq
  have h := image_getD_comp seed hlen
    (fun p : Fin 3 × Fin 3 =>
      idxAt ⟨y.val / 3 * 3 + p.1.val, boxIdxLt y p.1⟩
        ⟨x.val / 3 * 3 + p.2.val, boxIdxLt x p.2⟩)
    (boxIdx_image x y)
  exact h.trans (seed_toFinset_fullset seed hs)

/-- The seed drawn by `populate`'s seeding stage is a digit permutation. -/
theorem populate_seed_perm (poss picks : List Nat)
    (hposs : poss.Perm [1, 2, 3, 4, 5, 6, 7, 8, 9])
    (hlen : picks.length = 9)
    (hvalid : validPicks 9 picks = true) :
    (drawSeed poss picks).Perm [1, 2, 3, 4, 5, 6, 7, 8, 9] := by
  have hplen : poss.length = 9 := by simpa using hposs.length_eq
  exact (drawSeed_perm picks poss (by rw [hplen]; exact hvalid) (by omega)).trans hposs

/-! ## Claims on the generation algorithm -/

/-- Claim C1: after `populate`, every row of the board holds exactly the
digit set 1–9, and every output cell `(row j, col i)` equals
`seed[indexes[j][i]]` for the seed drawn by the seeding stage. -/
theorem populate_rows_full (b : Gameboard) (poss picks : List Nat)
    (hposs : poss.Perm [1, 2, 3, 4, 5, 6, 7, 8, 9])
    (hlen : picks.length = 9)
    (hvalid : validPicks 9 picks = true) :
    (∀ j : Fin 9, (b.populate poss picks).rowSet j = Gameboard.fullset) ∧
    (∀ j i : Fin 9, (b.populate poss picks).cells j i
      = (drawSeed poss picks).getD (idxAt j i) 0) :=
  ⟨fun j => applyIndexes_rowSet b _ (populate_seed_perm poss picks hposs hlen hvalid) j,
   fun _ _ => rfl⟩

/-- Witness for C1 at the identity seed order and all-zero picks. -/
theorem populate_rows_full_witness :
    (([1, 2, 3, 4, 5, 6, 7, 8, 9] : List Nat).Perm [1, 2, 3, 4, 5, 6, 7, 8, 9] ∧
      ([0, 0, 0, 0, 0, 0, 0, 0, 0] : List Nat).length = 9 ∧
      validPicks 9 [0, 0, 0, 0, 0, 0, 0, 0, 0] = true) ∧
    ((∀ j : Fin 9,
        (Gameboard.new.populate [1, 2, 3, 4, 5, 6, 7, 8, 9]
          [0, 0, 0, 0, 0, 0, 0, 0, 0]).rowSet j = Gameboard.fullset) ∧
      (∀ j i : Fin 9,
        (Gameboard.new.populate [1, 2, 3, 4, 5, 6, 7, 8, 9]
          [0, 0, 0, 0, 0, 0, 0, 0, 0]).cells j i
          = (drawSeed [1, 2, 3, 4, 5, 6, 7, 8, 9]
              [0, 0, 0, 0, 0, 0, 0, 0, 0]).getD (idxAt j i) 0)) :=
  ⟨⟨List.Perm.refl _, by decide, by decide⟩,
   populate_rows_full Gameboard.new _ _ (List.Perm.refl _) (by decide) (by decide)⟩

/-- Claim C10: after `populate`, every column of the board also holds
exactly the digit set 1–9, because the nine index permutations place nine
pairwise distinct seed indices into each column. -/
theorem populate_cols_full (b : Gameboard) (poss picks : List Nat)
    (hposs : poss.Perm [1, 2, 3, 4, 5, 6, 7, 8, 9])
    (hlen : picks.length = 9)
    (hvalid : validPicks 9 picks = true) :
    ∀ i : Fin 9, (b.populate poss picks).colSet i = Gameboard.fullset :=
  fun i => applyIndexes_colSet b _ (populate_seed_perm poss picks hposs hlen hvalid) i

/-- Witness for C10 at the identity seed order and all-zero picks. -/
theorem populate_cols_full_witness :
    (([1, 2, 3, 4, 5, 6, 7, 8, 9] : List Nat).Perm [1, 2, 3, 4, 5, 6, 7, 8, 9] ∧
      ([0, 0, 0, 0, 0, 0, 0, 0, 0] : List Nat).length = 9 ∧
      validPicks 9 [0, 0, 0, 0, 0, 0, 0, 0, 0] = true) ∧
    (∀ i : Fin 9,
      (Gameboard.new.populate [1, 2, 3, 4, 5, 6, 7, 8, 9]
        [0, 0, 0, 0, 0, 0, 0, 0, 0]).colSet i = Gameboard.fullset) :=
  ⟨⟨List.Perm.refl _, by decide, by decide⟩,
   populate_cols_full Gameboard.new _ _ (List.Perm.refl _) (by decide) (by decide)⟩

/-- Claim C2 is false on this code: there is no digit permutation whose
fill through the fixed index table leaves any 3×3 box short of the full
digit set — the nine shift rows cover every box completely. -/
theorem no_seed_breaks_box :
    ¬ ∃ seed : List Nat, seed.Perm [1, 2, 3, 4, 5, 6, 7, 8, 9] ∧
      ∃ x y : Fin 9,
        (Gameboard.new.applyIndexes seed).inbox x y ≠ Gameboard.fullset := by
  rintro ⟨seed, hs, x, y, hne⟩
  exact hne (applyIndexes_inbox Gameboard.new seed hs x y)

/-- Claim C2 (amended): the `populate` scheme does guarantee box-constraint
satisfaction — for every seed permutation of 1–9, every 3×3 box of the
generated grid holds exactly the full digit set. -/
theorem populate_boxes_full (b : Gameboard) (poss picks : List Nat)
    (hposs : poss.Perm [1, 2, 3, 4, 5, 6, 7, 8, 9])
    (hlen : picks.length = 9)
    (hvalid : validPicks 9 picks = true) :
    ∀ x y : Fin 9, (b.populate poss picks).inbox x y = Gameboard.fullset :=
  fun x y => applyIndexes_inbox b _ (populate_seed_perm poss picks hposs hlen hvalid) x y

/-- Witness for the amended C2 at the identity seed order and all-zero
picks. -/
theorem populate_boxes_full_witness :
    (([1, 2, 3, 4, 5, 6, 7, 8, 9] : List Nat).Perm [1, 2, 3, 4, 5, 6, 7, 8, 9] ∧
      ([0, 0, 0, 0, 0, 0, 0, 0, 0] : List Nat).length = 9 ∧
      validPicks 9 [0, 0, 0, 0, 0, 0, 0, 0, 0] = true) ∧
    (∀ x y : Fin 9,
      (Gameboard.new.populate [1, 2, 3, 4, 5, 6, 7, 8, 9]
        [0, 0, 0, 0, 0, 0, 0, 0, 0]).inbox x y = Gameboard.fullset) :=
  ⟨⟨List.Perm.refl _, by decide, by decide⟩,
   populate_boxes_full Gameboard.new _ _ (List.Perm.refl _) (by decide) (by decide)⟩

/-- Claim C8: `solved` is the stub constant `false`: on every board, in
particular on a fresh board and right after `populate`. -/
theorem solved_always_false :
    (∀ b : Gameboard, b.solved = false) ∧
    Gameboard.new.solved = false ∧
    (∀ (b : Gameboard) (poss picks : List Nat),
      (b.populate poss picks).solved = false) :=
  ⟨fun _ => rfl, rfl, fun _ _ _ => rfl⟩

/-! ## Claims on cell access and peer queries -/

/-- `set` at in-range coordinates succeeds and writes the one cell. -/
theorem set_eq_some (b : Gameboard) (cc rr v : Nat) (hc : cc < 9) (hr : rr < 9) :
    b.set (cc, rr) v
      = some ⟨fun j i => if j.val = rr ∧ i.val = cc then v else b.cells j i⟩ := by
  unfold Gameboard.set
  rw [dif_pos ⟨hr, hc⟩]

/-- `char` renders a cell holding a digit 1–9 as that digit character. -/
theorem char_of_cell (b : Gameboard) (ind : Fin 9 × Fin 9) (v : Nat)
    (hcell : b.cells ind.2 ind.1 = v) (h1 : 1 ≤ v) (h9 : v ≤ 9) :
    b.char ind = some (Nat.digitChar v) := by
  unfold Gameboard.char
  rw [hcell]
  interval_cases v <;> rfl

/-- `char` renders an empty cell as `none`. -/
theorem char_of_zero (b : Gameboard) (ind : Fin 9 × Fin 9)
    (hcell : b.cells ind.2 ind.1 = 0) : b.char ind = none := by
  unfold Gameboard.char
  rw [hcell]

/-- Claim C3: for every in-range `(col,row)` and digit `v` in 1..9, after
`set(col,row,v)` the query `char(col,row)` returns the decimal character of
`v`; after `set(col,row,0)` it returns `none`. -/
theorem set_then_char (b : Gameboard) (cc rr v : Nat) (hc : cc < 9) (hr : rr < 9)
    (h1 : 1 ≤ v) (h9 : v ≤ 9) :
    ∃ b1 b0 : Gameboard,
      b.set (cc, rr) v = some b1 ∧
      b1.char (⟨cc, hc⟩, ⟨rr, hr⟩) = some (Nat.digitChar v) ∧
      b.set (cc, rr) 0 = some b0 ∧
      b0.char (⟨cc, hc⟩, ⟨rr, hr⟩) = none := by
  refine ⟨_, _, set_eq_some b cc rr v hc hr, ?_, set_eq_some b cc rr 0 hc hr, ?_⟩
  · exact char_of_cell _ _ v (by simp) h1 h9
  · exact char_of_zero _ _ (by simp)

/-- Witness for C3 at cell (3,4) and digit 7 on the empty board. -/
theorem set_then_char_witness :
    ((3 : Nat) < 9 ∧ (4 : Nat) < 9 ∧ (1 : Nat) ≤ 7 ∧ (7 : Nat) ≤ 9) ∧
    (∃ b1 b0 : Gameboard,
      Gameboard.new.set (3, 4) 7 = some b1 ∧
      b1.char (⟨3, by decide⟩, ⟨4, by decide⟩) = some (Nat.digitChar 7) ∧
      Gameboard.new.set (3, 4) 0 = some b0 ∧
      b0.char (⟨3, by decide⟩, ⟨4, by decide⟩) = none) :=
  ⟨by decide,
   set_then_char Gameboard.new 3 4 7 (by decide) (by decide) (by decide) (by decide)⟩

/-- The two one-sided scans below and above `x` cover exactly "all but `x`". -/
theorem fin_compl_singleton (x : Fin 9) :
    Finset.Iio x ∪ Finset.Ioi x = Finset.univ.filter (fun i => i ≠ x) := by
  ext a
  simp [lt_or_lt_iff_ne]

/-- Claim C4: `leftright` (row peers) is exactly the image of row `y` over
all columns other than `x`, and `updown` (column peers) is exactly the image
of column `x` over all rows other than `y`; values from other rows
(respectively columns) never appear, and a 0 from any scanned empty peer
cell is included. -/
theorem leftright_updown_peers (b : Gameboard) (x y : Fin 9) :
    b.leftright x y
      = (Finset.univ.filter (fun i => i ≠ x)).image (fun i => b.cells y i) ∧
    b.updown x y
      = (Finset.univ.filter (fun j => j ≠ y)).image (fun j => b.cells j x) := by
  constructor
  · rw [Gameboard.leftright, ← Finset.image_union, fin_compl_singleton x]
  · rw [Gameboard.updown, ← Finset.image_union, fin_compl_singleton y]

/-- Claim C5: `inbox` is exactly the value set of the 3×3 sub-grid whose
top-left corner is `(x/3*3, y/3*3)`, with the queried cell included. -/
theorem inbox_box_peers (b : Gameboard) (x y : Fin 9) :
    b.inbox x y
      = (Finset.univ.filter (fun p : Fin 9 × Fin 9 =>
          p.1.val / 3 = y.val / 3 ∧ p.2.val / 3 = x.val / 3)).image
          (fun p => b.cells p.1 p.2) ∧
    b.cells y x ∈ b.inbox x y := by
  have hset : b.inbox x y
      = (Finset.univ.filter (fun p : Fin 9 × Fin 9 =>
          p.1.val / 3 = y.val / 3 ∧ p.2.val / 3 = x.val / 3)).image
          (fun p => b.cells p.1 p.2) := by
    ext v
    simp only [Gameboard.inbox, Finset.mem_image, Finset.mem_filter, Finset.mem_univ,
      true_and]
    constructor
    · rintro ⟨p, rfl⟩
      refine ⟨(⟨y.val / 3 * 3 + p.1.val, boxIdxLt y p.1⟩,
        ⟨x.val / 3 * 3 + p.2.val, boxIdxLt x p.2⟩), ⟨?_, ?_⟩, rfl⟩
      · show (y.val / 3 * 3 + p.1.val) / 3 = y.val / 3
        have h2 := p.1.isLt
        omega
      · show (x.val / 3 * 3 + p.2.val) / 3 = x.val / 3
        have h2 := p.2.isLt
        omega
    · rintro ⟨q, ⟨h1, h2⟩, rfl⟩
      refine ⟨(⟨q.1.val % 3, by omega⟩, ⟨q.2.val % 3, by omega⟩), ?_⟩
      have e1 : (⟨y.val / 3 * 3 + q.1.val % 3, boxIdxLt y ⟨q.1.val % 3, by omega⟩⟩ : Fin 9)
          = q.1 := by
        apply Fin.ext
        show y.val / 3 * 3 + q.1.val % 3 = q.1.val
        have h3 := q.1.isLt
        omega
      have e2 : (⟨x.val / 3 * 3 + q.2.val % 3, boxIdxLt x ⟨q.2.val % 3, by omega⟩⟩ : Fin 9)
          = q.2 := by
        apply Fin.ext
        show x.val / 3 * 3 + q.2.val % 3 = q.2.val
        have h3 := q.2.isLt
        omega
      rw [e1, e2]
  refine ⟨hset, ?_⟩
  rw [hset]
  exact Finset.mem_image_of_mem (fun p : Fin 9 × Fin 9 => b.cells p.1 p.2)
    (Finset.mem_filter.mpr ⟨Finset.mem_univ ((y, x) : Fin 9 × Fin 9), ⟨rfl, rfl⟩⟩)

/-! ## Claims on the controller -/

/-- Cell-index cast for a click at x = 110 with origin 10 and size 400. -/
theorem ucast_110 : usizeOfRat (((110 : ℚ) - 10) / 400 * 9) = 2 := by
  have h : (⌊((110 : ℚ) - 10) / 400 * 9⌋ : ℤ) = 2 := by
    rw [Int.floor_eq_iff]
    norm_num
  simp [usizeOfRat, h]

/-- Cell-index cast for a click at y = 210 with origin 10 and size 400. -/
theorem ucast_210 : usizeOfRat (((210 : ℚ) - 10) / 400 * 9) = 4 := by
  have h : (⌊((210 : ℚ) - 10) / 400 * 9⌋ : ℤ) = 4 := by
    rw [Int.floor_eq_iff]
    norm_num
  simp [usizeOfRat, h]

/-- Cell-index cast for a click exactly on the far edge x = 410. -/
theorem ucast_410 : usizeOfRat (((410 : ℚ) - 10) / 400 * 9) = 9 := by
  have h : (⌊((410 : ℚ) - 10) / 400 * 9⌋ : ℤ) = 9 := by
    rw [Int.floor_eq_iff]
    norm_num
  simp [usizeOfRat, h]

/-- Cell-index cast for a click on the near edge y = 10. -/
theorem ucast_10 : usizeOfRat (((10 : ℚ) - 10) / 400 * 9) = 0 := by
  norm_num [usizeOfRat]

/-- The spec's click scenario: origin (10,10), size 400, pointer move to
(110,210), then a primary click. -/
def clickDemo : Option GameboardController :=
  runEvents (GameboardController.new Gameboard.new) (10, 10) 400
    [GEvent.mouseCursor (110, 210), GEvent.pressMouseLeft]

/-- Evaluation of the click scenario: the selected cell becomes (2, 4). -/
theorem clickDemo_eval :
    clickDemo = some ⟨Gameboard.new, some (2, 4), (110, 210)⟩ := by
  have h1 : (GameboardController.new Gameboard.new).event (10, 10) 400
      (GEvent.mouseCursor (110, 210)) = some ⟨Gameboard.new, none, (110, 210)⟩ := rfl
  have h2 : (⟨Gameboard.new, none, (110, 210)⟩ : GameboardController).event (10, 10) 400
      GEvent.pressMouseLeft = some ⟨Gameboard.new, some (2, 4), (110, 210)⟩ := by
    simp only [GameboardController.event]
    rw [if_pos (by norm_num)]
    rw [ucast_110, ucast_210]
  simp [clickDemo, runEvents, h1, h2]

/-- Claim C6 is false on this code: the scenario's click does not select
(col 2, row 5). -/
theorem click_scenario_not_row5 :
    ¬ clickDemo.map (fun c => c.selected_cell) = some (some (2, 5)) := by
  rw [clickDemo_eval]
  decide

/-- Claim C6 (amended): with board origin (10,10) and size 400, a pointer
move to (110,210) followed by a primary click selects cell (col 2, row 4),
since (100,200)/400·9 = (2.25, 4.5) floors to (2, 4). -/
theorem click_scenario_row4 :
    clickDemo.map (fun c => c.selected_cell) = some (some (2, 4)) := by
  rw [clickDemo_eval]
  rfl

/-- The edge-click scenario behind claim C7: origin (10,10), size 400,
pointer at (410,10) — relative x equals the size exactly, which the
inclusive bound check accepts. -/
def edgeClickDemo : Option GameboardController :=
  runEvents (GameboardController.new Gameboard.new) (10, 10) 400
    [GEvent.mouseCursor (410, 10), GEvent.pressMouseLeft]

/-- Evaluation of the edge click: the selected cell becomes (9, 0). -/
theorem edgeClickDemo_eval :
    edgeClickDemo = some ⟨Gameboard.new, some (9, 0), (410, 10)⟩ := by
  have h1 : (GameboardController.new Gameboard.new).event (10, 10) 400
      (GEvent.mouseCursor (410, 10)) = some ⟨Gameboard.new, none, (410, 10)⟩ := rfl
  have h2 : (⟨Gameboard.new, none, (410, 10)⟩ : GameboardController).event (10, 10) 400
      GEvent.pressMouseLeft = some ⟨Gameboard.new, some (9, 0), (410, 10)⟩ := by
    simp only [GameboardController.event]
    rw [if_pos (by norm_num)]
    rw [ucast_410, ucast_10]
  simp [edgeClickDemo, runEvents, h1, h2]

/-- A digit key pressed with the out-of-range selection (9, 0) hits the
index panic in `set`. -/
theorem edge_key_panics :
    (⟨Gameboard.new, some (9, 0), (410, 10)⟩ : GameboardController).event (10, 10) 400
      (GEvent.pressKeyboard Key.d1) = none := rfl

/-- Claim C7 is violated by the code: a primary click whose relative
coordinates are within [0, board_size] inclusive can select column index 9,
which is not a valid cell address, and a subsequent digit key press then
panics (models the Rust index-out-of-bounds abort). -/
theorem edge_click_selects_col9 :
    edgeClickDemo.map (fun c => c.selected_cell) = some (some (9, 0)) ∧
    ¬ (9 : Nat) < 9 ∧
    runEvents (GameboardController.new Gameboard.new) (10, 10) 400
      [GEvent.mouseCursor (410, 10), GEvent.pressMouseLeft,
        GEvent.pressKeyboard Key.d1] = none := by
  refine ⟨by rw [edgeClickDemo_eval]; rfl, by decide, ?_⟩
  have h1 : (GameboardController.new Gameboard.new).event (10, 10) 400
      (GEvent.mouseCursor (410, 10)) = some ⟨Gameboard.new, none, (410, 10)⟩ := rfl
  have h2 : (⟨Gameboard.new, none, (410, 10)⟩ : GameboardController).event (10, 10) 400
      GEvent.pressMouseLeft = some ⟨Gameboard.new, some (9, 0), (410, 10)⟩ := by
    simp only [GameboardController.event]
    rw [if_pos (by norm_num)]
    rw [ucast_410, ucast_10]
  simp [runEvents, h1, h2, edge_key_panics]

/-- A single controller event never clears an existing selection: every
successful step from a state with a selected cell ends in a state with a
selected cell. -/
theorem event_preserves_selection (c : GameboardController) (pos : ℚ × ℚ) (size : ℚ)
    (e : GEvent) (c2 : GameboardController)
    (hsel : c.selected_cell.isSome = true)
    (h : c.event pos size e = some c2) :
    c2.selected_cell.isSome = true := by
  cases e with
  | mouseCursor p =>
    simp only [GameboardController.event] at h
    injection h with h
    subst h
    exact hsel
  | pressMouseLeft =>
    simp only [GameboardController.event] at h
    split at h
    · injection h with h
      subst h
      rfl
    · injection h with h
      subst h
      exact hsel
  | pressKeyboard k =>
    simp only [GameboardController.event] at h
    rcases hc : c.selected_cell with _ | ind
    · rw [hc] at hsel
      simp at hsel
    · simp only [hc] at h
      rcases hk : keyVal k with _ | v
      · simp only [hk] at h
        injection h with h
        subst h
        exact hsel
      · simp only [hk] at h
        rcases hs : c.gameboard.set ind v with _ | g
        · rw [hs] at h
          exact Option.noConfusion h
        · rw [hs] at h
          injection h with h
          subst h
          rfl

/-- Claim C9: once a cell is selected, no sequence of pointer-move, click
or key events that runs without a panic ever returns the controller to the
no-selection state. -/
theorem selection_persists (c : GameboardController) (pos : ℚ × ℚ) (size : ℚ)
    (es : List GEvent) (c2 : GameboardController)
    (hsel : c.selected_cell.isSome = true)
    (hrun : runEvents c pos size es = some c2) :
    c2.selected_cell.isSome = true := by
  induction es generalizing c with
  | nil =>
    simp only [runEvents] at hrun
    injection hrun with h
    subst h
    exact hsel
  | cons e es ih =>
    simp only [runEvents] at hrun
    rcases he : c.event pos size e with _ | c1
    · rw [he] at hrun
      exact Option.noConfusion hrun
    · rw [he] at hrun
      exact ih c1 (event_preserves_selection c pos size e c1 hsel he) hrun

/-- A controller with cell (2,3) selected. -/
def selCtrl : GameboardController := ⟨Gameboard.new, some (2, 3), (0, 0)⟩

/-- `selCtrl` after a pointer move to (5,5). -/
def selCtrl2 : GameboardController := ⟨Gameboard.new, some (2, 3), (5, 5)⟩

/-- Witness for C9: a pointer move from a selected state keeps a selection. -/
theorem selection_persists_witness :
    selCtrl.selected_cell.isSome = true ∧
    runEvents selCtrl (10, 10) 400 [GEvent.mouseCursor (5, 5)] = some selCtrl2 ∧
    selCtrl2.selected_cell.isSome = true :=
  ⟨rfl, rfl,
    selection_persists selCtrl (10, 10) 400 [GEvent.mouseCursor (5, 5)] selCtrl2 rfl rfl⟩
